import Mathlib

/-!
Shallow embedding of the `testprog` incremental build-and-test runner.

Machine integers (`u64`, `u128`) are modelled as `Nat` with explicit bounds
and `% 2 ^ w` reductions where the Rust arithmetic could wrap.  Byte strings
are `List Nat`, Rust `String`s are `String` or `List Char`.  External
collaborators (the file system, `serde_json`, the spawned processes, the
terminal) are modelled as explicit inputs describing their observable
behaviour, exactly following the control flow of the source.
-/

namespace Testprog

/-! Section: Hex fingerprint encoding (src/main.rs `SerdeCacheEntry`/`CacheEntry`)

`save_cache` renders each 128-bit fingerprint with `format!("{:032x}", _)`
(lowercase hex, zero-padded to width 32); `CacheEntry::from` parses it back
with `u128::from_str_radix(_, 16).unwrap()`. -/

/-- Lowercase hex digit characters used by Rust's `{:x}` formatting. -/
def hexDigitChar : Nat → Char
  | 0 => '0' | 1 => '1' | 2 => '2' | 3 => '3' | 4 => '4'
  | 5 => '5' | 6 => '6' | 7 => '7' | 8 => '8' | 9 => '9'
  | 10 => 'a' | 11 => 'b' | 12 => 'c' | 13 => 'd' | 14 => 'e' | 15 => 'f'
  | _ => '0'

/-- Rust `char::to_digit(16)`: the numeric value of one hexadecimal digit
character (`0-9`, `a-f`, `A-F`), `none` otherwise. -/
def hexCharVal (c : Char) : Option Nat :=
  if 48 ≤ c.toNat ∧ c.toNat ≤ 57 then some (c.toNat - 48)
  else if 97 ≤ c.toNat ∧ c.toNat ≤ 102 then some (c.toNat - 87)
  else if 65 ≤ c.toNat ∧ c.toNat ≤ 70 then some (c.toNat - 55)
  else none

/-- Digit-accumulation loop of `from_str_radix` (radix 16): fails on the
first non-digit character. -/
def hexAccum : List Char → Nat → Option Nat
  | [], acc => some acc
  | c :: rest, acc =>
    match hexCharVal c with
    | some d => hexAccum rest (acc * 16 + d)
    | none => none

/-- Parsing in `from_str_radix` strips one leading `'+'` (a leading `'-'` on an
unsigned type simply fails as a non-digit later). -/
def strip_plus : List Char → List Char
  | [] => []
  | c :: rest => if c = '+' then rest else c :: rest

/-- Model of `u128::from_str_radix(s, 16)`.  Rust detects overflow at the first
`checked_mul`/`checked_add` failure; since the accumulator is monotone
non-decreasing, that is equivalent to the final bound check used here. -/
def from_str_radix_16 (s : List Char) : Option Nat :=
  let digits := strip_plus s
  if digits.isEmpty then none
  else
    match hexAccum digits 0 with
    | some v => if v < 2 ^ 128 then some v else none
    | none => none

/-- Hex digits of `n`, most significant first (no leading zeros), with
explicit fuel so the recursion is structural.  `fuel` bounds the number of
digits; any `fuel` with `n < 16 ^ fuel` is enough. -/
def natToHexAux : Nat → Nat → List Char
  | 0, _ => []
  | fuel + 1, n =>
    if n < 16 then [hexDigitChar n]
    else natToHexAux fuel (n / 16) ++ [hexDigitChar (n % 16)]

/-- Hex digits of `n`, as produced by `{:x}`: `n + 1` units of fuel always
suffice because `n < 16 ^ (n + 1)`. -/
def natToHex (n : Nat) : List Char :=
  natToHexAux (n + 1) n

/-- Model of `format!("{:032x}", n)`: zero-pad the hex digits of `n` on the left to
a minimum width of 32 characters. -/
def to_hex_32 (n : Nat) : List Char :=
  List.replicate (32 - (natToHex n).length) '0' ++ natToHex n

/-- src/main.rs `CacheEntry` (lines 31-35): the in-memory cache entry, one
pair of 128-bit fingerprints per tracked source file. -/
structure CacheEntry where
  source_hash : Nat
  samples_hash : Nat
deriving DecidableEq

/-- src/main.rs `SerdeCacheEntry` (lines 25-29): the serialized form, both
fingerprints rendered as hex strings. -/
structure SerdeCacheEntry where
  source_hash : List Char
  samples_hash : List Char
deriving DecidableEq

/-- Model of `impl From<&CacheEntry> for SerdeCacheEntry` (src/main.rs lines 46-53):
render both fingerprints with `format!("{:032x}", _)`. -/
def SerdeCacheEntry.ofEntry (e : CacheEntry) : SerdeCacheEntry :=
  ⟨to_hex_32 e.source_hash, to_hex_32 e.samples_hash⟩

/-- Model of `impl From<&SerdeCacheEntry> for CacheEntry` (src/main.rs lines 37-44):
`u128::from_str_radix(_, 16).unwrap()` on both fields.  The `.unwrap()`
panic on a failed parse is modelled as `none`. -/
def CacheEntry.ofSerde (e : SerdeCacheEntry) : Option CacheEntry :=
  match from_str_radix_16 e.source_hash, from_str_radix_16 e.samples_hash with
  | some a, some b => some ⟨a, b⟩
  | _, _ => none

/-! Section: Cache loading (src/main.rs `load_cache`, lines 236-251, and its call
site in `main_`, line 140)

The file system and `serde_json` are external collaborators; their outcome
on the cache file is the input of the model: the file is missing
(`read_to_string` fails), present but unparseable as JSON of shape
`HashMap<PathBuf, SerdeCacheEntry>` (e.g. contents `"???"`), or parsed to
a list of entries. -/

inductive CacheFileRead where
  | missing
  | unparseable
  | parsed (entries : List (String × SerdeCacheEntry))

/-- Possible outcomes of `load_cache`: a loaded cache, the logged-and-opaque
`Err(AlreadyReported)`, or a process-aborting panic from the `.unwrap()`
inside `CacheEntry::from`. -/
inductive LoadResult where
  | ok (cache : List (String × CacheEntry))
  | reported
  | panicked
deriving DecidableEq

/-- The `.drain().map(|(k, v)| (k, CacheEntry::from(&v)))` conversion in
`load_cache`: the first entry whose hex fails to parse panics. -/
def convert_entries : List (String × SerdeCacheEntry) → Option (List (String × CacheEntry))
  | [] => some []
  | (k, v) :: rest =>
    match CacheEntry.ofSerde v with
    | some e => (convert_entries rest).map (fun l => (k, e) :: l)
    | none => none

/-- src/main.rs `load_cache` (lines 236-251): a read error (missing file)
and a deserialization error both log (at trace level) and return
`Err(AlreadyReported)`; a parsed cache is converted entry by entry, which
panics on an invalid hex fingerprint. -/
def load_cache : CacheFileRead → LoadResult
  | .missing => .reported
  | .unparseable => .reported
  | .parsed entries =>
    match convert_entries entries with
    | some c => .ok c
    | none => .panicked

/-- src/main.rs `main_` line 140: `load_cache(&cache_path).unwrap_or_default()`.
`some c` means the run proceeds with cache `c`; `none` models the panic
aborting the process.  Both error outcomes of `load_cache` are replaced by
the empty cache. -/
def main_cache (f : CacheFileRead) : Option (List (String × CacheEntry)) :=
  match load_cache f with
  | .ok c => some c
  | .reported => some []
  | .panicked => none

/-! Section: Hasher (src/database.rs `append_hash`, lines 165-173)

The auxiliary hash is `std::collections::hash_map::DefaultHasher`, an
external collaborator producing a 64-bit value; the model takes that value
(`hash`, with `hash < 2 ^ 64`) as input.  `hash` is cast `as u128`, then
`extended = hash | (hash << 32)` is computed in `u128` arithmetic (hence
the `% 2 ^ 128` where the shift could wrap) and XORed into `prev_hash`. -/

def append_hash (prev_hash : Nat) (hash : Nat) : Nat :=
  prev_hash ^^^ (hash ||| ((hash <<< 32) % 2 ^ 128))

/-- Modelled from the spec: "mixes an arbitrary hashable value into an
existing 128-bit hash using a wide (≥64-bit) auxiliary hash function,
replicated to fill 128 bits, then combined with XOR" — a 64-bit hash
replicated to fill 128 bits is `hash | (hash << 64)`. -/
def append_hash_spec (prev_hash : Nat) (hash : Nat) : Nat :=
  prev_hash ^^^ (hash ||| ((hash <<< 64) % 2 ^ 128))

/-! Section: Build step (src/main.rs `prepare_target` lines 170-217,
`compile_file` lines 568-587, `check_status` lines 476-491, and the cache
persistence gating in `main_` lines 142-153)

The g++ invocation is external; its observable outcome is either an exit
with some code or a spawn failure. -/

inductive CmdStatus where
  | exited (code : Int)
  | spawn_failed
deriving DecidableEq

/-- src/main.rs `check_status` (lines 476-491): a nonzero exit code is only
logged at debug level and still yields `Ok(())`; only a spawn failure
(`status` is `Err`) reports and returns `Err(AlreadyReported)`. -/
def check_status : CmdStatus → Except Unit Unit
  | .exited _ => .ok ()
  | .spawn_failed => .error ()

/-- src/fs.rs `check_status` (lines 176-192), used by src/samples.rs: in
this variant a nonzero exit code *is* an error. -/
def fs_check_status : CmdStatus → Except Unit Unit
  | .exited code => if code = 0 then .ok () else .error ()
  | .spawn_failed => .error ()

/-- src/main.rs `compile_file` (lines 568-587): builds the g++ command and
returns `check_status("g++", builder.status())`. -/
def compile_file (gpp : CmdStatus) : Except Unit Unit :=
  check_status gpp

/-- Fingerprint logic of src/main.rs `prepare_target` (lines 185-195), with
`needs_samples = false`: if the stored fingerprint differs from the freshly
computed one, the entry is overwritten *first* and the compiler invoked
afterwards.  Returns the cache entry as left in the cache map together with
the function's result (`?` propagates a `compile_file` error after the
mutation has already happened). -/
def prepare_target (entry : CacheEntry) (source_hash : Nat) (gpp : CmdStatus) :
    CacheEntry × Except Unit Unit :=
  if entry.source_hash ≠ source_hash then
    ({ entry with source_hash := source_hash }, compile_file gpp)
  else
    (entry, .ok ())

/-- src/main.rs `main_` (lines 142-153) for a single target: if
`prepare_target` failed, the run exits before `save_cache`; otherwise the
(possibly mutated) entry is persisted.  `some e` is the entry written to
the cache file, `none` means the cache file was not rewritten. -/
def run_single_target (entry : CacheEntry) (source_hash : Nat) (gpp : CmdStatus) :
    Option CacheEntry :=
  match prepare_target entry source_hash gpp with
  | (e, .ok _) => some e
  | (_, .error _) => none

/-! Section: Test executor (src/main.rs `test_samples`, lines 293-355)

The child process is external; the model takes its observable behaviour
(spawn success, captured stdout bytes, exit code) and the file system reads
as inputs, following the control flow of `test_samples`. -/

inductive TestOutcome where
  | matched
  | mismatched
deriving DecidableEq

/-- src/main.rs `TestSample` (lines 69-73): the discovered input/output
file paths of one fixture, either possibly missing. -/
structure TestSample where
  input : Option String
  output : Option String

/-- src/main.rs `test_samples` (lines 293-355): bail on a missing input or
output path; spawn the binary (error on spawn failure); queue the input
file to the writer thread; read the child's stdout to the end (error on a
read failure); `_ = child.wait()` discards the exit code; read the expected
bytes (error on a read failure); compare byte-exactly.  `.ok .mismatched`
is the `Err`-logged branch that runs `diff_failed`, `.ok .matched` the
`Ok`-logged branch. -/
def test_samples (sample : TestSample) (spawn_ok : Bool) (child_stdout : List Nat)
    (read_ok : Bool) (exit_code : Int) (expected_read : Option (List Nat)) :
    Except Unit TestOutcome :=
  match sample.input with
  | none => .error ()
  | some _ =>
    match sample.output with
    | none => .error ()
    | some _ =>
      if spawn_ok = false then .error ()
      else if read_ok = false then .error ()
      else
        -- `_ = child.wait()`: `exit_code` is intentionally unused
        match expected_read with
        | none => .error ()
        | some expected =>
          if child_stdout ≠ expected then .ok .mismatched else .ok .matched

/-! Section: Diff presenter (src/main.rs `diff_failed` lines 432-474,
`append_filename` lines 424-430, and `cli::Interactivity`)

Paths are modelled as a parent directory plus a file name, which is what
`append_filename` (`file_name` + suffix, `with_file_name`) manipulates.
The terminal is external: `stdin` is the sequence of `read_line` results,
an exhausted list modelling end-of-file (`read_line` succeeds with an empty
line). -/

structure RPath where
  parent : List String
  fileName : String
deriving DecidableEq

/-- src/main.rs `append_filename` (lines 424-430): append a string to the
path's final component, keeping the parent (a sibling path). -/
def append_filename (path : RPath) (append : String) : RPath :=
  { path with fileName := path.fileName ++ append }

/-- The `cli::Interactivity` enum as used by src/main.rs lines 440-459: `Skip`
(report and continue), `No` (show the diff immediately, without prompting),
`Yes` (prompt first). -/
inductive Interactivity where
  | skip
  | no
  | yes

/-- One result of `std::io::stdin().read_line(&mut line)`. -/
inductive ReadEvent where
  | line (s : String)
  | readErr

/-- Rust `char::is_whitespace`: the Unicode `White_Space` property. -/
def rust_is_whitespace (c : Char) : Bool :=
  [9, 10, 11, 12, 13, 32, 133, 160, 5760, 8192, 8193, 8194, 8195, 8196,
    8197, 8198, 8199, 8200, 8201, 8202, 8232, 8233, 8239, 8287,
    12288].contains c.toNat

/-- Model of `line.trim_start().chars().next()`: first character after stripping
leading whitespace. -/
def first_non_ws (s : String) : Option Char :=
  (s.toList.dropWhile rust_is_whitespace).head?

/-- The `View diff? [Y/n]` prompt loop of `diff_failed` (lines 444-456):
returns the decision and the number of `read_line` calls.  An exhausted
input list is end-of-file: `read_line` returns `Ok(0)` leaving the cleared
line empty, so the first-character match yields `None` and the loop breaks
with `true`; a read error breaks with `false`; `Y`/`y` or no first
character breaks with `true`; `N`/`n` breaks with `false`; anything else
loops. -/
def prompt_loop : List ReadEvent → Bool × Nat
  | [] => (true, 1)
  | .readErr :: _ => (false, 1)
  | .line s :: rest =>
    match first_non_ws s with
    | some c =>
      if c = 'Y' ∨ c = 'y' then (true, 1)
      else if c = 'N' ∨ c = 'n' then (false, 1)
      else
        let r := prompt_loop rest
        (r.1, r.2 + 1)
    | none => (true, 1)

/-- Observable effects of one `diff_failed` call: files written, the
environment variables given to the diff shell, whether the diff command was
launched, and how many terminal reads occurred. -/
structure DiffEffects where
  writes : List (RPath × List Nat)
  env : List (String × RPath)
  launched : Bool
  terminal_reads : Nat
deriving DecidableEq

/-- src/main.rs `diff_failed` (lines 432-474): persist the actual output to
`expected` + `".actual"`, return early if no diff command is configured,
apply the interactivity policy, and if diffing run `sh -c <diff>` with
`EXPECTED` and `ACTUAL` in the environment. -/
def diff_failed (expected : RPath) (actual : List Nat) (diff : Option String)
    (ask : Interactivity) (stdin : List ReadEvent) : DiffEffects :=
  let save := append_filename expected ".actual"
  let writes := [(save, actual)]
  match diff with
  | none => { writes := writes, env := [], launched := false, terminal_reads := 0 }
  | some _ =>
    let sd : Bool × Nat :=
      match ask with
      | .skip => (false, 0)
      | .no => (true, 0)
      | .yes => prompt_loop stdin
    if sd.1 then
      { writes := writes,
        env := [("EXPECTED", expected), ("ACTUAL", save)],
        launched := true, terminal_reads := sd.2 }
    else
      { writes := writes, env := [], launched := false, terminal_reads := sd.2 }

/-! Section: Fixture corpus format (src/samples.rs)

Byte strings are `List Nat` (`10` is `\n`, `45` is `-`). -/

abbrev Byte := Nat

/-- The newline byte. -/
def nl : Byte := 10

/-- The separator line `"---\n"` written by `make_samples_string`
(`writeln!(buf, "---")`). -/
def sep : List Byte := [45, 45, 45, 10]

/-- Model of `str.bytes().position(|c| c == b'\n')` (src/samples.rs line 27). -/
def find_nl_idx : List Byte → Option Nat
  | [] => none
  | b :: rest => if b = nl then some 0 else (find_nl_idx rest).map (· + 1)

/-- First index at which `sp` occurs as a contiguous subsequence (the
search underlying `bstr`'s substring split).  Only used with a nonempty
`sp` (the separator always contains its newline). -/
def find_sub (sp : List Byte) : List Byte → Option Nat
  | [] => none
  | b :: rest =>
    if sp.isPrefixOf (b :: rest) then some 0
    else (find_sub sp rest).map (· + 1)

/-- Model of `bstr::split_str`: the chunks of `s` between non-overlapping
occurrences of `sp`, scanned left to right, with fuel making the recursion
structural (any fuel ≥ `s.length` gives the same result). -/
def split_on_fuel (sp : List Byte) : Nat → List Byte → List (List Byte)
  | 0, s => [s]
  | fuel + 1, s =>
    match find_sub sp s with
    | none => [s]
    | some i => s.take i :: split_on_fuel sp fuel (s.drop (i + sp.length))

/-- Model of `remaining.split_str(separator)` (src/samples.rs line 30). -/
def split_on (sp s : List Byte) : List (List Byte) :=
  split_on_fuel sp s.length s

/-- Whitespace bytes removed by `bstr`'s `trim_end` (ASCII whitespace; the
multi-byte Unicode whitespace sequences cannot occur as single bytes). -/
def is_ws_byte (b : Byte) : Bool :=
  [9, 10, 11, 12, 13, 32].contains b

/-- Model of `header.trim_end()` (src/samples.rs line 39). -/
def trim_end_bytes (s : List Byte) : List Byte :=
  (s.reverse.dropWhile is_ws_byte).reverse

/-- src/samples.rs `Sample` (lines 15-18). -/
structure Sample where
  header : List Byte
  body : List Byte
deriving DecidableEq

/-- src/samples.rs `SampleIterator::new` (lines 25-33): the blob's first
line, newline included, becomes the separator; the remainder is split on
it.  `none` when the blob contains no newline. -/
def sample_iter_new (s : List Byte) : Option (List Byte × List (List Byte)) :=
  match find_nl_idx s with
  | none => none
  | some i => some (s.take (i + 1), split_on (s.take (i + 1)) (s.drop (i + 1)))

/-- src/samples.rs `SampleIterator::next` (lines 36-43), run to exhaustion:
consume the split sections two at a time as (whitespace-trimmed header,
body); a trailing section without a partner makes `next` return `None`,
silently dropping it. -/
def collect_pairs : List (List Byte) → List Sample
  | header :: body :: rest => ⟨trim_end_bytes header, body⟩ :: collect_pairs rest
  | _ => []

/-- Parsing a whole corpus blob: `SampleIterator::new` followed by
collecting every `next` item. -/
def parse_samples (s : List Byte) : Option (List Sample) :=
  (sample_iter_new s).map (fun p => collect_pairs p.2)

/-- One named fixture to encode: `(file, sample)` in `make_samples_string`
with both sides present (`sample.input.as_ref().unwrap()` bytes and the
output bytes, read from the files). -/
structure NamedSample where
  name : List Byte
  input : List Byte
  output : List Byte
deriving DecidableEq

/-- Model of `buf.ends_with(b"\n")`. -/
def ends_with_nl (buf : List Byte) : Bool :=
  buf.getLast? == some nl

/-- Lines 132-135 / 140-143 of src/samples.rs: append the body bytes, then
`if !buf.ends_with(b"\n") { buf.push(b'\n') }` on the whole buffer. -/
def push_body (buf body : List Byte) : List Byte :=
  if ends_with_nl (buf ++ body) then buf ++ body else (buf ++ body) ++ [nl]

/-- Model of `writeln!(buf, "{file} in")`: the name, `" in"` (bytes `32 105 110`)
and a newline. -/
def header_in (name : List Byte) : List Byte :=
  name ++ [32, 105, 110, nl]

/-- Model of `writeln!(buf, "{file} out")`: the name, `" out"` (bytes
`32 111 117 116`) and a newline. -/
def header_out (name : List Byte) : List Byte :=
  name ++ [32, 111, 117, 116, nl]

/-- Loop body of src/samples.rs `make_samples_string` (lines 125-144) for
one fixture. -/
def make_one (buf : List Byte) (s : NamedSample) : List Byte :=
  push_body
    (push_body (buf ++ sep ++ header_in s.name ++ sep) s.input ++
      sep ++ header_out s.name ++ sep)
    s.output

/-- src/samples.rs `make_samples_string` (lines 123-147). -/
def make_samples_string (collected : List NamedSample) : List Byte :=
  collected.foldl make_one []

/-- What `push_body` appends: the body, plus a newline unless the body is
empty (the buffer then still ends with the preceding separator's newline)
or already newline-terminated. -/
def body_enc (b : List Byte) : List Byte :=
  if b.isEmpty || ends_with_nl b then b else b ++ [nl]

/-- The bytes `make_one` appends for one fixture. -/
def chunk (s : NamedSample) : List Byte :=
  sep ++ header_in s.name ++ sep ++ body_enc s.input ++
    sep ++ header_out s.name ++ sep ++ body_enc s.output

/-- Concatenation of the per-fixture chunks. -/
def chunks : List NamedSample → List Byte
  | [] => []
  | s :: rest => chunk s ++ chunks rest

/-- Holds when `find_sub sep` finds nothing: the byte string never contains the
separator line. -/
def no_sep_inside (s : List Byte) : Bool :=
  (find_sub sep s).isNone

/-- A body that survives the round trip unchanged: empty or
newline-terminated (so `push_body` appends nothing) and free of the
separator string. -/
def good_body (b : List Byte) : Bool :=
  (b.isEmpty || ends_with_nl b) && no_sep_inside b

/-- Fixtures whose encoding is parsed back byte-identically: the name is
newline-free and both bodies are `good_body`. -/
def sample_ok (s : NamedSample) : Bool :=
  !(s.name.contains nl) && good_body s.input && good_body s.output

/-- The samples that parsing an encoded corpus is expected to yield: for
each fixture, its input section under header `name ++ " in"` and its
output section under header `name ++ " out"`. -/
def expected_samples : List NamedSample → List Sample
  | [] => []
  | s :: rest =>
    ⟨s.name ++ [32, 105, 110], s.input⟩ ::
      ⟨s.name ++ [32, 111, 117, 116], s.output⟩ :: expected_samples rest

/-- The section list that splitting an encoded corpus on the separator
produces: header, input body, header, output body, per fixture in order. -/
def seg_list : List NamedSample → List (List Byte)
  | [] => []
  | s :: rest =>
    header_in s.name :: body_enc s.input ::
      header_out s.name :: body_enc s.output :: seg_list rest

/-- Modelled from the spec: "headers must end with the literal suffix
`\" in\"` or `\" out\"`" — the validation the claim attributes to the
parser. -/
def header_valid_spec (h : List Byte) : Bool :=
  [32, 105, 110].isSuffixOf h || [32, 111, 117, 116].isSuffixOf h

/-- A corpus blob whose single header section fails the spec's validation:
`"---\nfoo\n---\nbar\n"` (`foo` = `102 111 111`, `bar` = `98 97 114`). -/
def c4_blob : List Byte :=
  sep ++ [102, 111, 111, nl] ++ sep ++ [98, 97, 114, nl]

/-! Section: Lemmas: hex encoding -/

lemma hexCharVal_hexDigitChar (d : Nat) (h : d < 16) :
    hexCharVal (hexDigitChar d) = some d := by
  interval_cases d <;> decide

lemma hexDigitChar_ne_plus (d : Nat) : hexDigitChar d ≠ '+' := by
  unfold hexDigitChar
  split <;> decide

lemma hexAccum_append (l₁ l₂ : List Char) (acc : Nat) :
    hexAccum (l₁ ++ l₂) acc = Option.bind (hexAccum l₁ acc) (hexAccum l₂) := by
  induction l₁ generalizing acc with
  | nil => simp [hexAccum]
  | cons c rest ih =>
    simp only [List.cons_append, hexAccum]
    cases hexCharVal c <;> simp [ih]

lemma natToHexAux_spec (fuel : Nat) :
    ∀ n, n < 16 ^ fuel → 0 < fuel →
      natToHexAux fuel n ≠ [] ∧
        (∀ acc, hexAccum (natToHexAux fuel n) acc =
          some (acc * 16 ^ (natToHexAux fuel n).length + n)) ∧
        (∀ k, 0 < k → n < 16 ^ k → (natToHexAux fuel n).length ≤ k) ∧
        (∀ c ∈ natToHexAux fuel n, ∃ d, d < 16 ∧ c = hexDigitChar d) := by
  induction fuel with
  | zero => intro n _ hpos; omega
  | succ fuel ih =>
    intro n hn _
    by_cases h16 : n < 16
    · simp only [natToHexAux, if_pos h16]
      refine ⟨by simp, ?_, ?_, ?_⟩
      · intro acc
        simp [hexAccum, hexCharVal_hexDigitChar n h16]
      · intro k hk _
        simpa using hk
      · intro c hc
        simp only [List.mem_singleton] at hc
        exact ⟨n, h16, hc⟩
    · have hge : 16 ≤ n := by omega
      have hdiv : n / 16 < 16 ^ fuel := by
        rw [Nat.div_lt_iff_lt_mul (by norm_num)]
        calc n < 16 ^ (fuel + 1) := hn
          _ = 16 ^ fuel * 16 := by ring
      have hfpos : 0 < fuel := by
        rcases Nat.eq_zero_or_pos fuel with h0 | h
        · exfalso
          rw [h0, pow_one] at hn
          omega
        · exact h
      obtain ⟨hne, haccum, hlen, hchars⟩ := ih (n / 16) hdiv hfpos
      simp only [natToHexAux, if_neg h16]
      refine ⟨by simp, ?_, ?_, ?_⟩
      · intro acc
        rw [hexAccum_append, haccum acc]
        have hd : n % 16 < 16 := Nat.mod_lt _ (by norm_num)
        simp only [Option.some_bind, hexAccum, hexCharVal_hexDigitChar _ hd,
          List.length_append, List.length_singleton]
        congr 1
        rw [pow_succ]
        ring_nf
        omega
      · intro k hk hnk
        have hk2 : 2 ≤ k := by
          by_contra hcon
          push_neg at hcon
          have hk1 : k = 1 := by omega
          rw [hk1, pow_one] at hnk
          omega
        have hdivk : n / 16 < 16 ^ (k - 1) := by
          rw [Nat.div_lt_iff_lt_mul (by norm_num)]
          have : 16 ^ (k - 1) * 16 = 16 ^ k := by
            rw [← pow_succ]
            congr 1
            omega
          omega
        have := hlen (k - 1) (by omega) hdivk
        simp only [List.length_append, List.length_singleton]
        omega
      · intro c hc
        rcases List.mem_append.mp hc with hc | hc
        · exact hchars c hc
        · simp only [List.mem_singleton] at hc
          exact ⟨n % 16, Nat.mod_lt _ (by norm_num), hc⟩

lemma lt_16_pow_succ (n : Nat) : n < 16 ^ (n + 1) :=
  calc n < 2 ^ n := Nat.lt_two_pow n
    _ ≤ 16 ^ n := Nat.pow_le_pow_left (by norm_num) n
    _ ≤ 16 ^ (n + 1) := Nat.pow_le_pow_right (by norm_num) (by omega)

lemma natToHex_spec (n : Nat) :
    natToHex n ≠ [] ∧
      (∀ acc, hexAccum (natToHex n) acc =
        some (acc * 16 ^ (natToHex n).length + n)) ∧
      (∀ k, 0 < k → n < 16 ^ k → (natToHex n).length ≤ k) ∧
      (∀ c ∈ natToHex n, ∃ d, d < 16 ∧ c = hexDigitChar d) :=
  natToHexAux_spec (n + 1) n (lt_16_pow_succ n) (by omega)

lemma hexAccum_zeros (k : Nat) : hexAccum (List.replicate k '0') 0 = some 0 := by
  induction k with
  | zero => rfl
  | succ k ih =>
    have h0 : hexCharVal '0' = some 0 := by decide
    simp only [List.replicate_succ, hexAccum, h0]
    simpa using ih

lemma strip_plus_of_head_ne (l : List Char) (h : l.head? ≠ some '+') :
    strip_plus l = l := by
  cases l with
  | nil => rfl
  | cons c rest =>
    simp only [List.head?_cons, ne_eq, Option.some.injEq] at h
    simp [strip_plus, h]

lemma from_str_radix_16_to_hex_32 (n : Nat) (h : n < 2 ^ 128) :
    from_str_radix_16 (to_hex_32 n) = some n := by
  obtain ⟨hne, haccum, _, hchars⟩ := natToHex_spec n
  have hhead : (to_hex_32 n).head? ≠ some '+' := by
    unfold to_hex_32
    cases hm : 32 - (natToHex n).length with
    | zero =>
      simp only [List.replicate_zero, List.nil_append]
      cases hl : natToHex n with
      | nil => simp
      | cons c cs =>
        simp only [List.head?_cons, ne_eq, Option.some.injEq]
        obtain ⟨d, _, hcd⟩ := hchars c (by rw [hl]; exact List.mem_cons_self c cs)
        rw [hcd]
        exact hexDigitChar_ne_plus d
    | succ k =>
      simp [List.replicate_succ]
  have hnonempty : (to_hex_32 n).isEmpty = false := by
    unfold to_hex_32
    rcases hl : natToHex n with _ | ⟨c, cs⟩
    · exact absurd hl hne
    · simp [List.isEmpty_eq_false_iff_exists_mem]
  rw [from_str_radix_16]
  simp only [strip_plus_of_head_ne _ hhead, hnonempty, Bool.false_eq_true, if_false]
  unfold to_hex_32
  rw [hexAccum_append, hexAccum_zeros, Option.some_bind, haccum 0]
  simp only [Nat.zero_mul, Nat.zero_add]
  rw [if_pos h]

/-! Section: Claim theorems: cache fingerprint encoding -/

/-- Claim C9: rendering both 128-bit fingerprints of a cache entry as
32-character zero-padded lowercase hex and parsing them back as base 16
recovers the original entry, for every `u128` pair. -/
theorem c9_cache_entry_roundtrip (e : CacheEntry) (h1 : e.source_hash < 2 ^ 128)
    (h2 : e.samples_hash < 2 ^ 128) :
    CacheEntry.ofSerde (SerdeCacheEntry.ofEntry e) = some e := by
  unfold CacheEntry.ofSerde SerdeCacheEntry.ofEntry
  rw [from_str_radix_16_to_hex_32 _ h1, from_str_radix_16_to_hex_32 _ h2]

/-- Witness for C9: the round trip at the concrete entry `(3, 2^128 - 1)`. -/
theorem c9_cache_entry_roundtrip_witness :
    ((3 : Nat) < 2 ^ 128 ∧ (2 ^ 128 - 1 : Nat) < 2 ^ 128) ∧
      CacheEntry.ofSerde (SerdeCacheEntry.ofEntry ⟨3, 2 ^ 128 - 1⟩) =
        some ⟨3, 2 ^ 128 - 1⟩ :=
  ⟨⟨by norm_num, by norm_num⟩,
    c9_cache_entry_roundtrip ⟨3, 2 ^ 128 - 1⟩ (by norm_num) (by norm_num)⟩

/-- Claim C10: a parsed cache file of the expected shape whose fingerprint
string is not valid 128-bit hex (a non-hex character, or 33 hex digits
overflowing `u128`) makes cache loading panic (`.panicked`) rather than
return the reported-error result (`.reported`). -/
theorem c10_invalid_hex_panics :
    load_cache (.parsed [("a.c", ⟨['x', 'y', 'z'], ['0']⟩)]) = .panicked ∧
      load_cache (.parsed [("a.c", ⟨'1' :: List.replicate 32 '0', ['0']⟩)]) = .panicked ∧
      LoadResult.panicked ≠ LoadResult.reported := by
  exact ⟨by decide, by decide, by decide⟩

/-- Counterexample to C2 as stated: a present-but-unparseable cache file
does not abort the run; `load_cache`'s error is swallowed by
`unwrap_or_default`, and the run proceeds with the same empty cache as a
cold start. -/
theorem c2_counterexample :
    load_cache .unparseable = .reported ∧
      main_cache .unparseable = some [] ∧
      main_cache .unparseable = main_cache .missing :=
  ⟨rfl, rfl, rfl⟩

/-- Claim C2 (amended): a missing cache file and a present-but-unparseable
cache file both yield an empty store and the run proceeds normally in both
cases; `load_cache` returns the reported-error result for both, but its
caller discards it with `unwrap_or_default`, so neither aborts the run. -/
theorem c2_amended :
    main_cache .missing = some [] ∧
      main_cache .unparseable = some [] ∧
      load_cache .missing = .reported ∧
      load_cache .unparseable = .reported :=
  ⟨rfl, rfl, rfl, rfl⟩

/-! Section: Claim theorems: hasher -/

/-- Counterexample to C5 as stated: the auxiliary 64-bit hash is *not*
replicated to fill all 128 bits — `hash | (hash << 32)` covers only the low
96 bits, so for the hash `2^64 - 1` the mixed-in value is `2^96 - 1`,
differing from the spec's full replication `hash | (hash << 64)`. -/
theorem c5_counterexample :
    append_hash 0 (2 ^ 64 - 1) ≠ append_hash_spec 0 (2 ^ 64 - 1) ∧
      append_hash 0 (2 ^ 64 - 1) < 2 ^ 96 ∧
      2 ^ 96 ≤ append_hash_spec 0 (2 ^ 64 - 1) :=
  ⟨by decide, by decide, by decide⟩

/-- Claim C5 (amended): `append_hash` XORs `hash | (hash << 32)` into the
fingerprint, which touches only the low 96 bits; bits 96-127 of the
fingerprint are always unchanged.  Equal inputs give equal fingerprints
(`append_hash` is a function of its inputs). -/
theorem c5_append_hash_amended (prev h : Nat) (hprev : prev < 2 ^ 128)
    (hh : h < 2 ^ 64) :
    append_hash prev h = prev ^^^ (h ||| (h <<< 32)) ∧
      append_hash prev h < 2 ^ 128 ∧
      ∀ i, 96 ≤ i → (append_hash prev h).testBit i = prev.testBit i := by
  have hshift : h <<< 32 < 2 ^ 96 := by
    rw [Nat.shiftLeft_eq]
    calc h * 2 ^ 32 < 2 ^ 64 * 2 ^ 32 := by
          exact Nat.mul_lt_mul_of_lt_of_le hh (le_refl _) (by norm_num)
      _ = 2 ^ 96 := by norm_num
  have hext : (h ||| (h <<< 32)) < 2 ^ 96 := by
    apply Nat.or_lt_two_pow
    · exact lt_of_lt_of_le hh (Nat.pow_le_pow_right (by norm_num) (by norm_num))
    · exact hshift
  have hmod : (h <<< 32) % 2 ^ 128 = h <<< 32 :=
    Nat.mod_eq_of_lt (lt_trans hshift (by norm_num))
  have heq : append_hash prev h = prev ^^^ (h ||| (h <<< 32)) := by
    unfold append_hash
    rw [hmod]
  refine ⟨heq, ?_, ?_⟩
  · rw [heq]
    exact Nat.xor_lt_two_pow hprev (lt_trans hext (by norm_num))
  · intro i hi
    rw [heq, Nat.testBit_xor]
    have hbit : (h ||| (h <<< 32)).testBit i = false :=
      Nat.testBit_lt_two_pow
        (lt_of_lt_of_le hext (Nat.pow_le_pow_right (by norm_num) hi))
    rw [hbit, Bool.xor_false]

/-- Witness for the amended C5 at `prev = 1`, `hash = 5`. -/
theorem c5_append_hash_amended_witness :
    ((1 : Nat) < 2 ^ 128 ∧ (5 : Nat) < 2 ^ 64) ∧
      append_hash 1 5 = 1 ^^^ (5 ||| (5 <<< 32)) ∧
      append_hash 1 5 < 2 ^ 128 ∧
      (append_hash 1 5).testBit 127 = (1 : Nat).testBit 127 :=
  ⟨⟨by norm_num, by norm_num⟩,
    (c5_append_hash_amended 1 5 (by norm_num) (by norm_num)).1,
    (c5_append_hash_amended 1 5 (by norm_num) (by norm_num)).2.1,
    (c5_append_hash_amended 1 5 (by norm_num) (by norm_num)).2.2 127 (by norm_num)⟩

/-! Section: Claim theorems: build step -/

/-- Claim C1, evaluated at the failing input: with stored fingerprint 5 and
computed fingerprint 7, a g++ run that exits with code 1 (a failed build)
still ends with the run persisting the *new* fingerprint 7 — `check_status`
in src/main.rs treats any exit code as success and `prepare_target` mutates
the entry before compiling.  The repo's own src/fs.rs `check_status`
(used for `tar` by src/samples.rs) treats the same exit as an error; only a
spawn failure prevents the cache from being saved. -/
theorem c1_failed_build_persists_new_fingerprint :
    run_single_target ⟨5, 0⟩ 7 (.exited 1) = some ⟨7, 0⟩ ∧
      check_status (.exited 1) = .ok () ∧
      fs_check_status (.exited 1) = .error () ∧
      run_single_target ⟨5, 0⟩ 7 .spawn_failed = none := by
  refine ⟨by decide, rfl, rfl, by decide⟩

/-! Section: Claim theorems: test executor -/

/-- Claim C8: when a fixture execution completes, the outcome is `matched`
exactly when the captured stdout bytes equal the expected bytes (no
trimming or normalization — plain list equality), it is `matched` whenever
everything succeeded and the bytes are equal, and the child's exit code has
no effect on the result at all. -/
theorem c8_outcome_byte_exact_exit_ignored (sample : TestSample)
    (spawn_ok read_ok : Bool) (child_stdout expected : List Nat) (ec ec' : Int) :
    (test_samples sample spawn_ok child_stdout read_ok ec (some expected) =
        .ok .matched → child_stdout = expected) ∧
      (test_samples sample spawn_ok child_stdout read_ok ec (some expected) =
        .ok .mismatched → child_stdout ≠ expected) ∧
      (sample.input.isSome → sample.output.isSome → spawn_ok = true →
        read_ok = true → child_stdout = expected →
        test_samples sample spawn_ok child_stdout read_ok ec (some expected) =
          .ok .matched) ∧
      ∀ er, test_samples sample spawn_ok child_stdout read_ok ec er =
        test_samples sample spawn_ok child_stdout read_ok ec' er := by
  obtain ⟨input, output⟩ := sample
  cases input <;> cases output <;> cases spawn_ok <;> cases read_ok <;>
    by_cases heq : child_stdout = expected <;>
    simp_all [test_samples]

/-- Witness for C8 at concrete fixtures: stdout `[97]` against expected
`[97]`, and stdout `[98]` against expected `[99]`. -/
theorem c8_outcome_witness :
    ([97] : List Nat) = [97] ∧ ([98] : List Nat) ≠ [99] :=
  ⟨(c8_outcome_byte_exact_exit_ignored ⟨some "i", some "o"⟩ true true [97] [97]
      0 1).1 rfl,
    (c8_outcome_byte_exact_exit_ignored ⟨some "i", some "o"⟩ true true [98] [99]
      0 1).2.1 rfl⟩

/-! Section: Lemmas: diff presenter -/

lemma diff_failed_yes_launched (expected : RPath) (actual : List Nat) (d : String)
    (stdin : List ReadEvent) :
    (diff_failed expected actual (some d) .yes stdin).launched =
      (prompt_loop stdin).1 ∧
      (diff_failed expected actual (some d) .yes stdin).terminal_reads =
        (prompt_loop stdin).2 := by
  unfold diff_failed
  rcases hp : prompt_loop stdin with ⟨b, r⟩
  cases b <;> simp [hp]

/-! Section: Claim theorems: diff presenter -/

/-- Counterexample to C6 as stated: on a concrete mismatch the presenter
persists a single artifact (the actual output, not three files), and the
diff shell's environment holds only `EXPECTED` and `ACTUAL` — no `INPUT`
variable exists. -/
theorem c6_counterexample :
    (diff_failed ⟨["out"], "t1_out.txt"⟩ [120] (some "vimdiff") .no
        []).writes.length = 1 ∧
      (diff_failed ⟨["out"], "t1_out.txt"⟩ [120] (some "vimdiff") .no
        []).launched = true ∧
      (diff_failed ⟨["out"], "t1_out.txt"⟩ [120] (some "vimdiff") .no
        []).env.lookup "INPUT" = none ∧
      (diff_failed ⟨["out"], "t1_out.txt"⟩ [120] (some "vimdiff") .no
        []).env.map Prod.fst = ["EXPECTED", "ACTUAL"] := by
  refine ⟨rfl, rfl, by decide, rfl⟩

/-- Claim C6 (amended): on mismatch the presenter persists exactly one
artifact — the actual output, at the deterministic sibling path `expected
file name + ".actual"` (overwritten on repeated runs) — and when the
external diff is launched its shell receives exactly the environment
variables `EXPECTED` (the fixture's existing expected-output file) and
`ACTUAL` (the persisted artifact); the fixture input is not persisted and
no `INPUT` variable is set. -/
theorem c6_artifacts_amended (expected : RPath) (actual : List Nat)
    (diff : Option String) (ask : Interactivity) (stdin : List ReadEvent) :
    (diff_failed expected actual diff ask stdin).writes =
        [(append_filename expected ".actual", actual)] ∧
      ((diff_failed expected actual diff ask stdin).launched = true →
        (diff_failed expected actual diff ask stdin).env =
          [("EXPECTED", expected), ("ACTUAL", append_filename expected ".actual")]) := by
  cases diff with
  | none => exact ⟨rfl, by intro h; simpa [diff_failed] using h⟩
  | some d =>
    cases ask with
    | skip => exact ⟨rfl, by intro h; simpa [diff_failed] using h⟩
    | no => exact ⟨rfl, fun _ => rfl⟩
    | yes =>
      unfold diff_failed
      rcases prompt_loop stdin with ⟨b, r⟩
      cases b <;> simp

/-- Witness for the amended C6 at a concrete mismatch with policy `No`. -/
theorem c6_artifacts_amended_witness :
    (diff_failed ⟨[], "o.txt"⟩ [5] (some "d") .no []).writes =
        [(append_filename ⟨[], "o.txt"⟩ ".actual", [5])] ∧
      (diff_failed ⟨[], "o.txt"⟩ [5] (some "d") .no []).env =
        [("EXPECTED", ⟨[], "o.txt"⟩), ("ACTUAL", append_filename ⟨[], "o.txt"⟩ ".actual")] :=
  ⟨(c6_artifacts_amended ⟨[], "o.txt"⟩ [5] (some "d") .no []).1,
    (c6_artifacts_amended ⟨[], "o.txt"⟩ [5] (some "d") .no []).2 rfl⟩

/-- Claim C7: with policy `Skip` no terminal read occurs and no diff is
launched; with policy `No` (show immediately) the diff is launched
unconditionally; with policy `Yes` (prompt), a line whose first
non-whitespace character is `y`/`Y` — or a line with no non-whitespace
character at all, i.e. an empty line — launches the diff, `n`/`N` skips
it, and any other line re-prompts (the decision is that of the remaining
input, with one more terminal read). -/
theorem c7_interactivity (expected : RPath) (actual : List Nat) (d : String)
    (diff : Option String) (stdin : List ReadEvent) :
    ((diff_failed expected actual diff .skip stdin).launched = false ∧
      (diff_failed expected actual diff .skip stdin).terminal_reads = 0) ∧
      (diff_failed expected actual (some d) .no stdin).launched = true ∧
      (∀ s rest,
        first_non_ws s = some 'y' ∨ first_non_ws s = some 'Y' ∨
            first_non_ws s = none →
        (diff_failed expected actual (some d) .yes (.line s :: rest)).launched =
          true) ∧
      (∀ s rest, first_non_ws s = some 'n' ∨ first_non_ws s = some 'N' →
        (diff_failed expected actual (some d) .yes (.line s :: rest)).launched =
          false) ∧
      ∀ s rest c, first_non_ws s = some c →
        ¬(c = 'y' ∨ c = 'Y' ∨ c = 'n' ∨ c = 'N') →
        prompt_loop (.line s :: rest) = ((prompt_loop rest).1, (prompt_loop rest).2 + 1) := by
  refine ⟨?_, rfl, ?_, ?_, ?_⟩
  · cases diff <;> exact ⟨rfl, rfl⟩
  · intro s rest hy
    rw [(diff_failed_yes_launched expected actual d (.line s :: rest)).1]
    unfold prompt_loop
    rcases hy with hy | hy | hy <;> rw [hy] <;> simp
  · intro s rest hn
    rw [(diff_failed_yes_launched expected actual d (.line s :: rest)).1]
    unfold prompt_loop
    rcases hn with hn | hn <;> rw [hn] <;> simp
  · intro s rest c hc hother
    push_neg at hother
    obtain ⟨h1, h2, h3, h4⟩ := hother
    conv_lhs => rw [prompt_loop]
    rw [hc]
    simp only [if_neg (not_or.mpr ⟨h2, h1⟩), if_neg (not_or.mpr ⟨h4, h3⟩)]

/-- Witness for C7: concrete prompts — `Skip` with nonempty stdin, `" Y"`,
`"no"`, and a re-prompt on `"x"` followed by `"y"`. -/
theorem c7_interactivity_witness :
    (diff_failed ⟨[], "o"⟩ [1] (some "d") .skip [.line "zz"]).launched = false ∧
      (diff_failed ⟨[], "o"⟩ [1] (some "d") .yes [.line " Y"]).launched = true ∧
      (diff_failed ⟨[], "o"⟩ [1] (some "d") .yes [.line "no"]).launched = false ∧
      prompt_loop [.line "x", .line "y"] =
        ((prompt_loop [.line "y"]).1, (prompt_loop [.line "y"]).2 + 1) :=
  ⟨(c7_interactivity ⟨[], "o"⟩ [1] "d" (some "d") [.line "zz"]).1.1,
    (c7_interactivity ⟨[], "o"⟩ [1] "d" (some "d") []).2.2.1 " Y" []
      (Or.inr (Or.inl (by decide))),
    (c7_interactivity ⟨[], "o"⟩ [1] "d" (some "d") []).2.2.2.1 "no" []
      (Or.inl (by decide)),
    (c7_interactivity ⟨[], "o"⟩ [1] "d" (some "d") []).2.2.2.2 "x" [.line "y"] 'x'
      (by decide) (by decide)⟩

/-! Section: Lemmas: substring search and splitting -/

lemma isPrefixOf_eq (l₁ l₂ : List Byte) :
    l₁.isPrefixOf l₂ = true ↔ l₁ <+: l₂ :=
  List.isPrefixOf_iff_prefix

lemma find_sub_none_iff (sp l : List Byte) (hsp : sp ≠ []) :
    find_sub sp l = none ↔ ∀ p, ¬ sp <+: l.drop p := by
  induction l with
  | nil =>
    simp only [find_sub, true_iff]
    intro p hp
    rw [List.drop_nil] at hp
    exact hsp (List.prefix_nil.mp hp)
  | cons b rest ih =>
    simp only [find_sub]
    by_cases hpre : sp.isPrefixOf (b :: rest)
    · simp only [if_pos hpre]
      constructor
      · intro h
        exact absurd h (by simp)
      · intro h
        exact absurd (isPrefixOf_eq _ _ |>.mp hpre) (by simpa using h 0)
    · rw [if_neg hpre, Option.map_eq_none', ih]
      constructor
      · intro h p
        cases p with
        | zero =>
          simpa using fun hc => hpre (isPrefixOf_eq _ _ |>.mpr hc)
        | succ p => exact h p
      · intro h p
        exact h (p + 1)

lemma find_sub_some_spec (sp l : List Byte) (i : Nat)
    (h : find_sub sp l = some i) :
    sp <+: l.drop i ∧ ∀ j < i, ¬ sp <+: l.drop j := by
  induction l generalizing i with
  | nil => simp [find_sub] at h
  | cons b rest ih =>
    simp only [find_sub] at h
    by_cases hpre : sp.isPrefixOf (b :: rest)
    · rw [if_pos hpre, Option.some.injEq] at h
      subst h
      exact ⟨isPrefixOf_eq _ _ |>.mp hpre, by omega⟩
    · rw [if_neg hpre] at h
      rcases Option.map_eq_some'.mp h with ⟨i', hi', hplus⟩
      subst hplus
      obtain ⟨hp, hmin⟩ := ih i' hi'
      refine ⟨hp, ?_⟩
      intro j hj
      cases j with
      | zero =>
        simpa using fun hc => hpre (isPrefixOf_eq _ _ |>.mpr hc)
      | succ j => exact hmin j (by omega)

lemma find_sub_eq_some_iff (sp l : List Byte) (i : Nat) (hsp : sp ≠ []) :
    find_sub sp l = some i ↔
      (sp <+: l.drop i ∧ ∀ j < i, ¬ sp <+: l.drop j) := by
  refine ⟨find_sub_some_spec sp l i, ?_⟩
  rintro ⟨hp, hmin⟩
  cases hfind : find_sub sp l with
  | none => exact absurd hp ((find_sub_none_iff sp l hsp).mp hfind i)
  | some i' =>
    obtain ⟨hp', hmin'⟩ := find_sub_some_spec sp l i' hfind
    rcases Nat.lt_trichotomy i i' with hlt | heq | hgt
    · exact absurd hp (hmin' i hlt)
    · rw [heq]
    · exact absurd hp' (hmin i' hgt)

lemma find_sub_some_bound (sp l : List Byte) (i : Nat) (hsp : sp ≠ [])
    (h : find_sub sp l = some i) : i + sp.length ≤ l.length := by
  have hp := (find_sub_some_spec sp l i h).1
  have hle := hp.length_le
  rw [List.length_drop] at hle
  rcases Nat.lt_or_ge i l.length with hi | hi
  · omega
  · rw [List.drop_eq_nil_of_le hi] at hp
    exact absurd (List.prefix_nil.mp hp) hsp

lemma split_on_fuel_mono (sp : List Byte) (hsp : sp ≠ []) :
    ∀ f g s, s.length ≤ f → s.length ≤ g →
      split_on_fuel sp f s = split_on_fuel sp g s := by
  intro f
  induction f with
  | zero =>
    intro g s hf _
    have hs : s = [] := List.eq_nil_of_length_eq_zero (by omega)
    subst hs
    cases g with
    | zero => rfl
    | succ g => simp [split_on_fuel, find_sub]
  | succ f ih =>
    intro g s hf hg
    cases g with
    | zero =>
      have hs : s = [] := List.eq_nil_of_length_eq_zero (by omega)
      subst hs
      simp [split_on_fuel, find_sub]
    | succ g =>
      simp only [split_on_fuel]
      cases hfind : find_sub sp s with
      | none => rfl
      | some i =>
        have hbound := find_sub_some_bound sp s i hsp hfind
        have hsplen : 1 ≤ sp.length := by
          cases sp with
          | nil => exact absurd rfl hsp
          | cons c cs => simp
        have hdrop : (s.drop (i + sp.length)).length = s.length - (i + sp.length) :=
          List.length_drop _ _
        change List.take i s :: split_on_fuel sp f (s.drop (i + sp.length)) =
          List.take i s :: split_on_fuel sp g (s.drop (i + sp.length))
        rw [ih g (s.drop (i + sp.length)) (by omega) (by omega)]

lemma split_on_fuel_eq (sp : List Byte) (hsp : sp ≠ []) (f : Nat) (s : List Byte)
    (hf : s.length ≤ f) : split_on_fuel sp f s = split_on sp s :=
  split_on_fuel_mono sp hsp f s.length s hf (le_refl _)

lemma prefix_getElem? (sp t : List Byte) (h : sp <+: t) (i : Nat)
    (hi : i < sp.length) : t[i]? = sp[i]? := by
  obtain ⟨u, hu⟩ := h
  rw [← hu, List.getElem?_append_left hi]

lemma prefix_of_append_left (sp x y : List Byte) (h : sp <+: x ++ y)
    (hlen : sp.length ≤ x.length) : sp <+: x := by
  have h' : sp = (x ++ y).take sp.length := List.prefix_iff_eq_take.mp h
  rw [List.take_append_eq_append_take, Nat.sub_eq_zero_of_le hlen,
    List.take_zero, List.append_nil] at h'
  rw [h']
  exact List.take_prefix sp.length x

/-- The decisive boundary fact: in `a ++ sep ++ b`, if `a` itself never
contains the separator and is empty or newline-terminated, the first
occurrence of `sep` is exactly at index `a.length` — an occurrence starting
inside `a` would either lie wholly inside `a` or force `a`'s final newline
byte to be one of the separator's leading `'-'` bytes. -/
lemma find_sub_append_sep (a b : List Byte) (hfa : find_sub sep a = none)
    (hend : a = [] ∨ a.getLast? = some nl) :
    find_sub sep (a ++ (sep ++ b)) = some a.length := by
  rw [find_sub_eq_some_iff sep _ a.length (by decide)]
  constructor
  · rw [List.drop_append_eq_append_drop, List.drop_length, Nat.sub_self,
      List.drop_zero, List.nil_append]
    exact List.prefix_append sep b
  · intro j hj hpre
    have ha : a ≠ [] := by
      intro h0
      subst h0
      simp at hj
    rcases le_or_lt (j + sep.length) a.length with hcase | hcase
    · -- the occurrence would lie wholly inside `a`
      have hdropj : (a ++ (sep ++ b)).drop j = a.drop j ++ (sep ++ b) := by
        rw [List.drop_append_eq_append_drop, Nat.sub_eq_zero_of_le (by omega),
          List.drop_zero]
      rw [hdropj] at hpre
      have hinside : sep <+: a.drop j :=
        prefix_of_append_left sep (a.drop j) (sep ++ b) hpre
          (by rw [List.length_drop]; omega)
      exact (find_sub_none_iff sep a (by decide)).mp hfa j hinside
    · -- the occurrence straddles the boundary: `a`'s last byte would be `'-'`
      have hlast : a.getLast? = some nl := hend.resolve_left ha
      have hlastidx : a[a.length - 1]? = some nl := by
        rw [← List.getLast?_eq_getElem? a]
        exact hlast
      have hk : a.length - 1 - j < 3 := by
        have : sep.length = 4 := by decide
        omega
      have hsepk : sep[a.length - 1 - j]? = some 45 := by
        have h3 : a.length - 1 - j < 3 := hk
        interval_cases h : a.length - 1 - j <;> decide
      have hfull : (a ++ (sep ++ b))[a.length - 1]? = some nl := by
        rw [List.getElem?_append_left (by omega)]
        exact hlastidx
      have hdropped : ((a ++ (sep ++ b)).drop j)[a.length - 1 - j]? = some 45 := by
        rw [prefix_getElem? sep _ hpre _ (by rw [show sep.length = 4 from rfl]; omega)]
        exact hsepk
      rw [List.getElem?_drop] at hdropped
      have : j + (a.length - 1 - j) = a.length - 1 := by omega
      rw [this, hfull] at hdropped
      simp [nl] at hdropped

lemma split_on_no_sep (a : List Byte) (hfa : find_sub sep a = none) :
    split_on sep a = [a] := by
  unfold split_on
  cases hl : a.length with
  | zero =>
    have : a = [] := List.eq_nil_of_length_eq_zero hl
    subst this
    rfl
  | succ m => simp [split_on_fuel, hfa]

lemma split_on_append (a b : List Byte) (hfa : find_sub sep a = none)
    (hend : a = [] ∨ a.getLast? = some nl) :
    split_on sep (a ++ (sep ++ b)) = a :: split_on sep b := by
  have hlen : (a ++ (sep ++ b)).length = a.length + 4 + b.length := by
    simp [sep]
    omega
  obtain ⟨m, hm⟩ : ∃ m, (a ++ (sep ++ b)).length = m + 1 :=
    ⟨a.length + 3 + b.length, by omega⟩
  unfold split_on
  rw [hm]
  simp only [split_on_fuel, find_sub_append_sep a b hfa hend]
  congr 1
  · rw [List.take_append_eq_append_take, Nat.sub_self, List.take_zero,
      List.append_nil, List.take_length]
  · have hdrop : (a ++ (sep ++ b)).drop (a.length + sep.length) = b := by
      rw [List.drop_append_eq_append_drop, List.drop_eq_nil_of_le (by omega),
        List.nil_append, List.drop_append_eq_append_drop,
        List.drop_eq_nil_of_le (by omega)]
      have : a.length + sep.length - a.length - sep.length = 0 := by omega
      rw [this, List.drop_zero, List.nil_append]
    rw [hdrop]
    exact split_on_fuel_eq sep (by decide) m b (by omega)

/-! Section: Lemmas: header sections never contain the separator -/

/-- A byte string whose only newline is its final byte, and whose
fourth-from-last byte is not `'-'`, cannot contain the separator line
`"---\n"`: an occurrence would place the separator's newline at the final
position and a `'-'` fourth from the end. -/
lemma find_sub_sep_none_generic (h : List Byte)
    (hnl : ∀ j, h[j]? = some nl → j + 1 = h.length)
    (h45 : h[h.length - 4]? ≠ some 45) :
    find_sub sep h = none := by
  rw [find_sub_none_iff sep h (by decide)]
  intro p hp
  have hlen : p + 4 ≤ h.length := by
    have := hp.length_le
    rw [List.length_drop] at this
    have hsl : sep.length = 4 := by decide
    rcases Nat.lt_or_ge p h.length with hph | hph
    · omega
    · rw [List.drop_eq_nil_of_le hph] at hp
      exact absurd (List.prefix_nil.mp hp) (by decide)
  have h3 : (h.drop p)[3]? = some nl := by
    rw [prefix_getElem? sep _ hp 3 (by decide)]
    decide
  rw [List.getElem?_drop] at h3
  have hp3 := hnl (p + 3) h3
  have h0 : (h.drop p)[0]? = some 45 := by
    rw [prefix_getElem? sep _ hp 0 (by decide)]
    decide
  rw [List.getElem?_drop, Nat.add_zero] at h0
  have : p = h.length - 4 := by omega
  rw [this] at h0
  exact h45 h0

/-- Helper: the only newline in `name ++ tail` with a newline-free `name`
and a `tail` whose only newline is final, is the final byte. -/
lemma only_final_nl (name tail : List Byte) (hname : name.contains nl = false)
    (htail : ∀ k, tail[k]? = some nl → k + 1 = tail.length) :
    ∀ j, (name ++ tail)[j]? = some nl → j + 1 = (name ++ tail).length := by
  intro j hj
  have hnotin : nl ∉ name := by simpa using hname
  rcases Nat.lt_or_ge j name.length with hjn | hjn
  · rw [List.getElem?_append_left hjn] at hj
    exact absurd (List.getElem?_mem hj) hnotin
  · rw [List.getElem?_append_right hjn] at hj
    have := htail (j - name.length) hj
    rw [List.length_append]
    omega

lemma find_sub_header_in (name : List Byte) (hname : name.contains nl = false) :
    find_sub sep (header_in name) = none := by
  unfold header_in
  apply find_sub_sep_none_generic
  · apply only_final_nl name [32, 105, 110, nl] hname
    intro k hk
    match k with
    | 0 => simp [nl] at hk
    | 1 => simp [nl] at hk
    | 2 => simp [nl] at hk
    | 3 => rfl
    | k + 4 => simp at hk
  · rw [List.length_append, List.length_cons, List.length_cons,
      List.length_cons, List.length_cons, List.length_nil]
    have : name.length + (0 + 1 + 1 + 1 + 1) - 4 = name.length := by omega
    rw [this, List.getElem?_append_right (le_refl _), Nat.sub_self]
    decide

lemma find_sub_header_out (name : List Byte) (hname : name.contains nl = false) :
    find_sub sep (header_out name) = none := by
  unfold header_out
  apply find_sub_sep_none_generic
  · apply only_final_nl name [32, 111, 117, 116, nl] hname
    intro k hk
    match k with
    | 0 => simp [nl] at hk
    | 1 => simp [nl] at hk
    | 2 => simp [nl] at hk
    | 3 => simp [nl] at hk
    | 4 => rfl
    | k + 5 => simp at hk
  · rw [List.length_append, List.length_cons, List.length_cons,
      List.length_cons, List.length_cons, List.length_cons, List.length_nil]
    have h1 : name.length + (0 + 1 + 1 + 1 + 1 + 1) - 4 = name.length + 1 := by omega
    rw [h1, List.getElem?_append_right (by omega)]
    have h2 : name.length + 1 - name.length = 1 := by omega
    rw [h2]
    decide

/-! Section: Lemmas: headers end with a newline and trim back to `name ++ " in"`
/ `name ++ " out"` -/

lemma header_in_getLast? (name : List Byte) :
    (header_in name).getLast? = some nl := by
  unfold header_in
  rw [List.getLast?_append]
  rfl

lemma header_out_getLast? (name : List Byte) :
    (header_out name).getLast? = some nl := by
  unfold header_out
  rw [List.getLast?_append]
  rfl

lemma trim_end_header_in (name : List Byte) :
    trim_end_bytes (header_in name) = name ++ [32, 105, 110] := by
  unfold trim_end_bytes header_in
  rw [List.reverse_append]
  have h10 : is_ws_byte nl = true := by decide
  have h110 : is_ws_byte 110 = false := by decide
  simp only [List.reverse_cons, List.reverse_nil, List.nil_append,
    List.cons_append, List.dropWhile_cons, h10, h110, if_true, if_false,
    Bool.false_eq_true]
  simp

lemma trim_end_header_out (name : List Byte) :
    trim_end_bytes (header_out name) = name ++ [32, 111, 117, 116] := by
  unfold trim_end_bytes header_out
  rw [List.reverse_append]
  have h10 : is_ws_byte nl = true := by decide
  have h116 : is_ws_byte 116 = false := by decide
  simp only [List.reverse_cons, List.reverse_nil, List.nil_append,
    List.cons_append, List.dropWhile_cons, h10, h116, if_true, if_false,
    Bool.false_eq_true]
  simp

/-! Section: Lemmas: the encoder produces separator-delimited chunks -/

lemma ends_with_nl_append (x y : List Byte) (hy : ends_with_nl y = true) :
    ends_with_nl (x ++ y) = true := by
  unfold ends_with_nl at hy ⊢
  rw [List.getLast?_append]
  cases hgy : y.getLast? with
  | none =>
    rw [hgy] at hy
    simp at hy
  | some v =>
    rw [hgy] at hy
    simpa using hy

lemma ends_with_nl_sep (x : List Byte) : ends_with_nl (x ++ sep) = true :=
  ends_with_nl_append x sep (by decide)

lemma push_body_eq (buf b : List Byte) (hbuf : ends_with_nl buf = true) :
    push_body buf b = buf ++ body_enc b := by
  unfold push_body body_enc
  cases hb : b with
  | nil =>
    simp only [List.isEmpty_nil, Bool.true_or, if_true, List.append_nil, hbuf]
  | cons c cs =>
    have hne : c :: cs ≠ [] := by simp
    have hlast : (buf ++ c :: cs).getLast? = (c :: cs).getLast? := by
      rw [List.getLast?_append]
      cases hgy : (c :: cs).getLast? with
      | none =>
        exact absurd (List.getLast?_isSome.mpr hne) (by rw [hgy]; simp)
      | some v => rfl
    have hcond : ends_with_nl (buf ++ c :: cs) = ends_with_nl (c :: cs) := by
      unfold ends_with_nl
      rw [hlast]
    rw [hcond]
    simp only [List.isEmpty_cons, Bool.false_or]
    by_cases hend : ends_with_nl (c :: cs) = true
    · rw [if_pos hend, if_pos hend]
    · rw [if_neg hend, if_neg hend, List.append_assoc]

lemma make_one_eq (buf : List Byte) (s : NamedSample) :
    make_one buf s = buf ++ chunk s := by
  unfold make_one chunk
  rw [push_body_eq (buf ++ sep ++ header_in s.name ++ sep) s.input
      (ends_with_nl_sep _)]
  rw [push_body_eq _ s.output (ends_with_nl_sep _)]
  simp [List.append_assoc]

lemma foldl_make_one (l : List NamedSample) :
    ∀ buf, List.foldl make_one buf l = buf ++ chunks l := by
  induction l with
  | nil => intro buf; simp [chunks]
  | cons s rest ih =>
    intro buf
    simp only [List.foldl_cons, chunks]
    rw [ih (make_one buf s), make_one_eq, List.append_assoc]

lemma make_samples_string_eq_chunks (l : List NamedSample) :
    make_samples_string l = chunks l := by
  unfold make_samples_string
  rw [foldl_make_one l []]
  rfl

/-! Section: Lemmas: the round-trip induction -/

lemma sample_ok_parts (s : NamedSample) (h : sample_ok s = true) :
    s.name.contains nl = false ∧ good_body s.input = true ∧
      good_body s.output = true := by
  unfold sample_ok at h
  rw [Bool.and_eq_true, Bool.and_eq_true] at h
  obtain ⟨⟨hname, hin⟩, hout⟩ := h
  exact ⟨by simpa using hname, hin, hout⟩

lemma body_enc_good (b : List Byte) (h : good_body b = true) :
    body_enc b = b := by
  unfold good_body at h
  rw [Bool.and_eq_true] at h
  unfold body_enc
  rw [if_pos h.1]

lemma good_body_no_sep (b : List Byte) (h : good_body b = true) :
    find_sub sep b = none := by
  unfold good_body at h
  rw [Bool.and_eq_true] at h
  have := h.2
  unfold no_sep_inside at this
  exact Option.isNone_iff_eq_none.mp this

lemma good_body_end (b : List Byte) (h : good_body b = true) :
    b = [] ∨ b.getLast? = some nl := by
  unfold good_body at h
  rw [Bool.and_eq_true] at h
  have h1 := h.1
  rw [Bool.or_eq_true] at h1
  rcases h1 with h1 | h1
  · exact Or.inl (List.isEmpty_iff.mp h1)
  · unfold ends_with_nl at h1
    exact Or.inr (by simpa using h1)

lemma split_main (rest : List NamedSample) :
    ∀ s : NamedSample, sample_ok s = true → (∀ x ∈ rest, sample_ok x = true) →
      split_on sep (header_in s.name ++ (sep ++ (body_enc s.input ++ (sep ++
        (header_out s.name ++ (sep ++ (body_enc s.output ++ chunks rest))))))) =
        seg_list (s :: rest) := by
  induction rest with
  | nil =>
    intro s hs _
    obtain ⟨hname, hin, hout⟩ := sample_ok_parts s hs
    rw [split_on_append (header_in s.name) _ (find_sub_header_in _ hname)
        (Or.inr (header_in_getLast? _))]
    rw [split_on_append (body_enc s.input) _
        (by rw [body_enc_good _ hin]; exact good_body_no_sep _ hin)
        (by rw [body_enc_good _ hin]; exact good_body_end _ hin)]
    rw [split_on_append (header_out s.name) _ (find_sub_header_out _ hname)
        (Or.inr (header_out_getLast? _))]
    rw [show chunks [] = [] from rfl, List.append_nil]
    rw [split_on_no_sep _
        (by rw [body_enc_good _ hout]; exact good_body_no_sep _ hout)]
    rfl
  | cons s2 r2 ih =>
    intro s hs hr
    have hs2 : sample_ok s2 = true := hr s2 (List.mem_cons_self s2 r2)
    have hr2 : ∀ x ∈ r2, sample_ok x = true :=
      fun x hx => hr x (List.mem_cons_of_mem s2 hx)
    obtain ⟨hname, hin, hout⟩ := sample_ok_parts s hs
    rw [split_on_append (header_in s.name) _ (find_sub_header_in _ hname)
        (Or.inr (header_in_getLast? _))]
    rw [split_on_append (body_enc s.input) _
        (by rw [body_enc_good _ hin]; exact good_body_no_sep _ hin)
        (by rw [body_enc_good _ hin]; exact good_body_end _ hin)]
    rw [split_on_append (header_out s.name) _ (find_sub_header_out _ hname)
        (Or.inr (header_out_getLast? _))]
    have hchunks2 : body_enc s.output ++ chunks (s2 :: r2) =
        body_enc s.output ++ (sep ++ (header_in s2.name ++ (sep ++
          (body_enc s2.input ++ (sep ++ (header_out s2.name ++ (sep ++
            (body_enc s2.output ++ chunks r2)))))))) := by
      rw [show chunks (s2 :: r2) = chunk s2 ++ chunks r2 from rfl, chunk]
      simp [List.append_assoc]
    rw [hchunks2]
    rw [split_on_append (body_enc s.output) _
        (by rw [body_enc_good _ hout]; exact good_body_no_sep _ hout)
        (by rw [body_enc_good _ hout]; exact good_body_end _ hout)]
    rw [ih s2 hs2 hr2]
    rfl

lemma collect_seg_list (l : List NamedSample)
    (h : ∀ s ∈ l, sample_ok s = true) :
    collect_pairs (seg_list l) = expected_samples l := by
  induction l with
  | nil => rfl
  | cons s rest ih =>
    have hs := h s (List.mem_cons_self s rest)
    obtain ⟨hname, hin, hout⟩ := sample_ok_parts s hs
    have hstep : collect_pairs (seg_list (s :: rest)) =
        ⟨trim_end_bytes (header_in s.name), body_enc s.input⟩ ::
          ⟨trim_end_bytes (header_out s.name), body_enc s.output⟩ ::
            collect_pairs (seg_list rest) := rfl
    rw [hstep, trim_end_header_in, trim_end_header_out, body_enc_good _ hin,
      body_enc_good _ hout, ih (fun x hx => h x (List.mem_cons_of_mem s hx))]
    rfl

lemma find_nl_idx_sep_append (y : List Byte) :
    find_nl_idx (sep ++ y) = some 3 := by
  simp [sep, find_nl_idx, nl]

lemma sample_iter_new_sep (y : List Byte) :
    sample_iter_new (sep ++ y) = some (sep, split_on sep y) := by
  unfold sample_iter_new
  rw [find_nl_idx_sep_append y]
  have ht : (sep ++ y).take (3 + 1) = sep := by simp [sep]
  have hd : (sep ++ y).drop (3 + 1) = y := by simp [sep]
  change some ((sep ++ y).take (3 + 1),
    split_on ((sep ++ y).take (3 + 1)) ((sep ++ y).drop (3 + 1))) = _
  rw [ht, hd]

/-! Section: Claim theorems: fixture corpus round trip and parser validation -/

/-- Counterexample to C3 as stated: encoding the single pair named `"a"`
with input `"x"` (no trailing newline) and output `"y\n"` and parsing it
back yields the input body `"x\n"` — a newline was appended, so the bodies
are not byte-identical. -/
theorem c3_counterexample :
    parse_samples (make_samples_string [⟨[97], [120], [121, 10]⟩]) =
        some [⟨[97, 32, 105, 110], [120, 10]⟩, ⟨[97, 32, 111, 117, 116], [121, 10]⟩] ∧
      ([120, 10] : List Byte) ≠ [120] := by
  exact ⟨by decide, by decide⟩

/-- Claim C3 (amended): for every nonempty list of named pairs whose names
are newline-free and whose bodies are empty or newline-terminated and never
contain the separator string `"---\n"`, encoding with `make_samples_string`
and parsing with the sample iterator yields exactly one `" in"` and one
`" out"` section per pair, in order, with byte-identical bodies and the
names recoverable from the headers.  (For a body without a trailing
newline the encoder appends one, so the claim's unconditional byte-identity
fails; see the counterexample.) -/
theorem c3_roundtrip_amended (samples : List NamedSample) (hne : samples ≠ [])
    (hok : ∀ s ∈ samples, sample_ok s = true) :
    parse_samples (make_samples_string samples) =
      some (expected_samples samples) := by
  obtain ⟨⟩ | ⟨s, rest⟩ := samples
  · exact absurd rfl hne
  · have hs : sample_ok s = true := hok s (List.mem_cons_self s rest)
    have hrest : ∀ x ∈ rest, sample_ok x = true :=
      fun x hx => hok x (List.mem_cons_of_mem s hx)
    rw [make_samples_string_eq_chunks]
    have hshape : chunks (s :: rest) =
        sep ++ (header_in s.name ++ (sep ++ (body_enc s.input ++ (sep ++
          (header_out s.name ++ (sep ++ (body_enc s.output ++ chunks rest))))))) := by
      rw [show chunks (s :: rest) = chunk s ++ chunks rest from rfl, chunk]
      simp [List.append_assoc]
    rw [hshape]
    unfold parse_samples
    rw [sample_iter_new_sep, Option.map_some']
    rw [split_main rest s hs hrest]
    rw [collect_seg_list (s :: rest) hok]

/-- Witness for the amended C3 at the concrete corpus
`[("a", "x\n", "y\n")]`. -/
theorem c3_roundtrip_amended_witness :
    (([⟨[97], [120, 10], [121, 10]⟩] : List NamedSample) ≠ [] ∧
        ∀ s ∈ ([⟨[97], [120, 10], [121, 10]⟩] : List NamedSample),
          sample_ok s = true) ∧
      parse_samples (make_samples_string [⟨[97], [120, 10], [121, 10]⟩]) =
        some (expected_samples [⟨[97], [120, 10], [121, 10]⟩]) :=
  ⟨⟨by decide, by decide⟩,
    c3_roundtrip_amended [⟨[97], [120, 10], [121, 10]⟩] (by decide) (by decide)⟩

/-- Counterexample to C4 as stated: the corpus `"---\nfoo\n---\nbar\n"` has
a header section `"foo"` that fails the spec's `" in"`/`" out"` validation,
yet the parser yields the pair instead of reporting and skipping it — no
validation or error reporting exists in `SampleIterator::next`. -/
theorem c4_counterexample :
    parse_samples c4_blob = some [⟨[102, 111, 111], [98, 97, 114, 10]⟩] ∧
      header_valid_spec [102, 111, 111] = false := by
  exact ⟨by decide, by decide⟩

/-- Claim C4 (amended): `SampleIterator::next` performs no header
validation and reports no corpus-integrity errors: each consecutive pair of
sections is yielded unconditionally as (whitespace-trimmed header, body)
regardless of the header's suffix or of `in`/`in` adjacency, and when the
corpus has an odd number of sections the trailing header is silently
dropped. -/
theorem c4_no_validation_amended :
    (∀ header body rest, collect_pairs (header :: body :: rest) =
        ⟨trim_end_bytes header, body⟩ :: collect_pairs rest) ∧
      (∀ header, collect_pairs [header] = []) ∧
      collect_pairs ([] : List (List Byte)) = [] :=
  ⟨fun _ _ _ => rfl, fun _ => rfl, rfl⟩

/-- Witness for the amended C4: a three-section corpus yields one pair and
silently drops the trailing section. -/
theorem c4_no_validation_amended_witness :
    collect_pairs [[102, 10], [5], [7]] = [⟨[102], [5]⟩] := by
  rw [c4_no_validation_amended.1 [102, 10] [5] [[7]],
    c4_no_validation_amended.2.1 [7]]
  decide

end Testprog
